import Mathlib

/-!
Shallow embedding of `src/lssp/ssp.py`, the speculative-sampling core
(draft sampler, corrective resampling, accept/reject iteration, generation
loop), together with theorems checking the specification's claims.

Modelling conventions:
* the batch dimension is carried only at the `ssp` entry point (the code
  asserts `B == 1` there and afterwards indexes row 0 everywhere);
* tensors of probabilities/logits are `List ℚ` rows (exact rationals in
  place of floating point);
* a model is a function from a token sequence to one logits row per
  position, the spec's model capability;
* the process-wide torch RNG seeded by `torch.manual_seed` is an explicit
  random source `rsrc : ℕ → ℚ` with a counter threaded through the code:
  `torch.rand_like` consumes one draw, `torch.multinomial` consumes one
  draw (inverse-CDF sampling);
* torch runtime errors (stacking an empty list, sampling from an invalid
  probability row) are `Except.error` with the corresponding message;
* `stream_token_if_required` and the debug logging are pure side channels
  (spec §6: "no effect on correctness") and are omitted.
-/

namespace Lssp

/-- Token identifiers: integer ids, as in the Python code. -/
abbrev Token := Nat

/-- One row over the vocabulary (logits or probabilities). -/
abbrev Row := List ℚ

/-- A model, as the spec's capability: forward(token sequence) returns one
next-token logits row per input position. -/
abbrev Model := List Token → List Row

/-- Modelled from the spec: `get_temperature_distribution` lives in
`lssp/base.py`, which is absent from `src/`. Spec §4.1: divide each logit
by the temperature and apply a normalized exponential (softmax) along the
vocabulary axis. The exponential is abstracted as the parameter `pexp`
(theorems assume only its strict positivity, the one property of `exp`
the claims rest on); with exact rational arithmetic the max-subtraction
stabilization of §4.1 is a no-op and is dropped. -/
def get_temperature_distribution (pexp : ℚ → ℚ) (temp : ℚ) (logits : Row) : Row :=
  let exps := logits.map (fun l => pexp (l / temp))
  exps.map (fun x => x / exps.sum)

/-- The body of the `for t in range(K)` loop of `_draft_sample_k`
(ssp.py lines 21-28): at each step feed the sequence so far to the draft
model, take the last position's logits, sample one token with the
pluggable `sample_fn` (from `lssp.base`, absent from `src/`; spec §6 fixes
only its signature `sample(logits) → token id`), and append it.
Returns the extended sequence and the list of per-step draft logits. -/
def draftStep (model : Model) (sample_fn : Row → Token) :
    ℕ → List Token → List Token × List Row
  | 0, inputs_plus_k => (inputs_plus_k, [])
  | k + 1, inputs_plus_k =>
    let next_token_logits := (model inputs_plus_k).getLastD []
    let next_token_id := sample_fn next_token_logits
    let rest := draftStep model sample_fn k (inputs_plus_k ++ [next_token_id])
    (rest.1, next_token_logits :: rest.2)

/-- Ghost instrumentation of `draftStep`: the list of arguments passed to
the draft model, one entry per model invocation. -/
def draftStepCalls (model : Model) (sample_fn : Row → Token) :
    ℕ → List Token → List (List Token)
  | 0, _ => []
  | k + 1, inputs_plus_k =>
    inputs_plus_k ::
      draftStepCalls model sample_fn k
        (inputs_plus_k ++ [sample_fn ((model inputs_plus_k).getLastD [])])

/-- Shallow embedding of `_draft_sample_k` (ssp.py lines 14-30): sample K
tokens from the draft model autoregressively; `torch.stack` on the empty
logits list (which happens exactly when K = 0) raises a RuntimeError,
modelled as the error branch. -/
def _draft_sample_k (model : Model) (sample_fn : Row → Token)
    (input_ids : List Token) (K : ℕ) : Except String (List Token × List Row) :=
  let result := draftStep model sample_fn K input_ids
  if result.2.isEmpty then .error "stack expects a non-empty TensorList"
  else .ok result

/-- The corrective-distribution computation of
`_target_sample_from_distribution` (ssp.py lines 34-37): elementwise
difference target − draft, clamp at zero against `torch.zeros_like`, then
divide by the total mass. With exact rationals, division by a zero mass
yields the all-zero row (torch instead produces NaN entries; both are
caught by the validity check inside `torch.multinomial` below). -/
def correctiveDistribution (target_distribution draft_distribution : Row) : Row :=
  let diff := List.zipWith (fun a b => a - b) target_distribution draft_distribution
  let clamped := diff.map (fun x => max x 0)
  clamped.map (fun x => x / clamped.sum)

/-- Inverse-CDF categorical pick used by `torch.multinomial` with
`num_samples = 1`: walk the row subtracting masses from the uniform draw. -/
def multinomialPick : Row → ℚ → Token
  | [], _ => 0
  | p :: ps, u => if u < p then 0 else multinomialPick ps (u - p) + 1

/-- Model of `torch.multinomial` on one probability row: torch validates
the row at runtime (a RuntimeError when an entry is negative or non-finite
or when the total mass is not positive; rationals cannot carry the NaNs a
0/0 normalization produces in torch, so a zero-mass normalized row reaches
this check as the all-zero row), then samples by CDF inversion on a
uniform draw. -/
def torchMultinomial (distribution : Row) (u : ℚ) : Except String Token :=
  if distribution.any (fun p => decide (p < 0)) || decide (distribution.sum ≤ 0) then
    .error "invalid multinomial distribution"
  else .ok (multinomialPick distribution u)

/-- Shallow embedding of `_target_sample_from_distribution`
(ssp.py lines 33-38): normalize the clamped difference of the two rows and
sample from it with `torch.multinomial`, consuming one uniform draw. -/
def _target_sample_from_distribution (target_distribution draft_distribution : Row)
    (u : ℚ) : Except String Token :=
  torchMultinomial (correctiveDistribution target_distribution draft_distribution) u

/-- The clamped importance ratio of one accept/reject step
(ssp.py lines 57-61): target probability over draft probability at the
draft-sampled token, then `torch.min` against a tensor of ones. -/
def sampled_ratios (target_row draft_row : Row) (tok : Token) : ℚ :=
  min (target_row.getD tok 0 / draft_row.getD tok 0) 1

/-- The data one step of the accept/reject loop looks at: the target
distribution row, the draft distribution row, and the draft-sampled token
at that position (`target_distribution[:1, t-1, ·]`,
`draft_distribution[:1, t-1, ·]`, `inputs_plus_k[0, T+t-1]`). -/
abbrev SpecStep := Row × Row × Token

/-- The token component of a speculative step. -/
def stepTok (s : SpecStep) : Token := s.2.2

/-- Shallow embedding of the accept-reject token loop of `_ssp_iteration`
(ssp.py lines 54-77), one recursive call per `t in range(1, K+1)`.
State: the remaining steps, the committed `input_ids`, `accept_count`,
and the RNG counter. Each step draws `rs = torch.rand_like(...)` (one RNG
draw); acceptance (`rs < sampled_ratios`, the batch-1 reading of
`.any()`) appends the draft token and continues; rejection samples one
replacement from the corrective distribution (one further RNG draw inside
`torch.multinomial`), appends it and breaks, clearing `all_accepted`.
Returns `(input_ids, accept_count, all_accepted, rng counter)`. -/
def acceptLoop (rsrc : ℕ → ℚ) :
    List SpecStep → List Token → ℕ → ℕ →
    Except String (List Token × ℕ × Bool × ℕ)
  | [], input_ids, accept_count, r => .ok (input_ids, accept_count, true, r)
  | (trow, drow, tok) :: rest, input_ids, accept_count, r =>
    if rsrc r < sampled_ratios trow drow tok then
      acceptLoop rsrc rest (input_ids ++ [tok]) (accept_count + 1) (r + 1)
    else
      match _target_sample_from_distribution trow drow (rsrc (r + 1)) with
      | .error e => .error e
      | .ok next_token_id => .ok (input_ids ++ [next_token_id], accept_count, false, r + 2)

/-- The `[:, -K-1:, :]` slice: the last `K1` rows (all rows when there are
fewer, matching Python slicing). -/
def lastSlice (K1 : ℕ) (rows : List Row) : List Row :=
  rows.drop (rows.length - K1)

/-- The verifier's target logits (ssp.py line 49): one target-model call on
the extended sequence, keeping the last K+1 positions. -/
def _ssp_target_logits (target_model : Model) (inputs_plus_k : List Token) (K : ℕ) :
    List Row :=
  lastSlice (K + 1) (target_model inputs_plus_k)

/-- The per-step data of the accept/reject loop of `_ssp_iteration`
(ssp.py lines 56-63), for t = 1..K (index i = t−1): the target and draft
distribution rows at position i and the draft token `inputs_plus_k[T+i]`. -/
def _ssp_specSteps (target_model : Model) (pexp : ℚ → ℚ) (temp : ℚ)
    (input_ids : List Token) (inputs_plus_k : List Token) (draft_logits : List Row)
    (K : ℕ) : List SpecStep :=
  let T := input_ids.length
  let target_distribution :=
    (_ssp_target_logits target_model inputs_plus_k K).map
      (get_temperature_distribution pexp temp)
  let draft_distribution := draft_logits.map (get_temperature_distribution pexp temp)
  (List.range K).map (fun i =>
    (target_distribution.getD i [], draft_distribution.getD i [],
      inputs_plus_k.getD (T + i) 0))

/-- Shallow embedding of `_ssp_iteration` (ssp.py lines 41-88): draft K
tokens, score the extended sequence once with the target model, run the
accept/reject loop, and if every speculative token was accepted append the
bonus token sampled by `sample_fn` from the last target-logits row
(`target_logits[:1, -1, :]`). Returns `(input_ids, accept_count, rng
counter)`. -/
def _ssp_iteration (target_model draft_model : Model) (sample_fn : Row → Token)
    (pexp : ℚ → ℚ) (temp : ℚ) (rsrc : ℕ → ℚ) (input_ids : List Token) (K : ℕ)
    (r : ℕ) : Except String (List Token × ℕ × ℕ) :=
  match _draft_sample_k draft_model sample_fn input_ids K with
  | .error e => .error e
  | .ok (inputs_plus_k, draft_logits) =>
    let target_logits := _ssp_target_logits target_model inputs_plus_k K
    let steps :=
      _ssp_specSteps target_model pexp temp input_ids inputs_plus_k draft_logits K
    match acceptLoop rsrc steps input_ids 0 r with
    | .error e => .error e
    | .ok (ids, accept_count, all_accepted, r') =>
      if all_accepted then
        .ok (ids ++ [sample_fn (target_logits.getLastD [])], accept_count, r')
      else
        .ok (ids, accept_count, r')

/-- Structure of the draft loop: it only ever appends, adds exactly K
tokens, and collects exactly K logits rows. -/
theorem draftStep_spec (model : Model) (sample_fn : Row → Token) :
    ∀ (K : ℕ) (ids : List Token),
      ∃ ext, (draftStep model sample_fn K ids).1 = ids ++ ext ∧ ext.length = K ∧
        (draftStep model sample_fn K ids).2.length = K := by
  intro K
  induction K with
  | zero => intro ids; exact ⟨[], by simp [draftStep]⟩
  | succ k ih =>
    intro ids
    obtain ⟨ext, h1, h2, h3⟩ :=
      ih (ids ++ [sample_fn ((model ids).getLastD [])])
    refine ⟨sample_fn ((model ids).getLastD []) :: ext, ?_, ?_, ?_⟩
    · simpa [draftStep] using h1
    · simp [h2]
    · simp only [draftStep, List.length_cons]
      omega

/-- Full characterization of a successful accept/reject loop run: either
every step accepted (flag true, one token per step appended in order, one
RNG draw per step) or the loop broke at the first rejection after j
accepted steps (flag false, the j accepted tokens plus one replacement
appended, j+2 RNG draws consumed). -/
theorem acceptLoop_ok_spec (rsrc : ℕ → ℚ) :
    ∀ (steps : List SpecStep) (ids : List Token) (cnt r : ℕ)
      (ids' : List Token) (cnt' : ℕ) (b : Bool) (r' : ℕ),
      acceptLoop rsrc steps ids cnt r = .ok (ids', cnt', b, r') →
      (b = true ∧ cnt' = cnt + steps.length ∧ ids' = ids ++ steps.map stepTok ∧
        r' = r + steps.length) ∨
      (b = false ∧ ∃ j x, j < steps.length ∧ cnt' = cnt + j ∧
        ids' = ids ++ (steps.take j).map stepTok ++ [x] ∧ r' = r + j + 2) := by
  intro steps
  induction steps with
  | nil =>
    intro ids cnt r ids' cnt' b r' h
    simp only [acceptLoop, Except.ok.injEq, Prod.mk.injEq] at h
    obtain ⟨h1, h2, h3, h4⟩ := h
    left
    simp [← h1, ← h2, ← h3, ← h4]
  | cons s rest ih =>
    obtain ⟨trow, drow, tok⟩ := s
    intro ids cnt r ids' cnt' b r' h
    rw [acceptLoop] at h
    by_cases hacc : rsrc r < sampled_ratios trow drow tok
    · rw [if_pos hacc] at h
      rcases ih (ids ++ [tok]) (cnt + 1) (r + 1) ids' cnt' b r' h with h1 | h2
      · obtain ⟨hb, hc, hi, hr⟩ := h1
        left
        refine ⟨hb, by simp [hc]; omega, ?_, by simp [hr]; omega⟩
        simp [hi, stepTok]
      · obtain ⟨hb, j, x, hj, hc, hi, hr⟩ := h2
        right
        refine ⟨hb, j + 1, x, by simpa using hj, by omega, ?_, by omega⟩
        simp [hi, stepTok]
    · rw [if_neg hacc] at h
      cases hs : _target_sample_from_distribution trow drow (rsrc (r + 1)) with
      | error e => rw [hs] at h; cases h
      | ok x =>
        rw [hs] at h
        simp only [Except.ok.injEq, Prod.mk.injEq] at h
        obtain ⟨h1, h2, h3, h4⟩ := h
        right
        exact ⟨h3.symm, 0, x, by simp, by omega, by simp [← h1], by omega⟩

/-- A successful `_ssp_iteration` only appends, commits exactly
`accept_count + 1` tokens, accepts at most K of them, and implies K ≥ 1
(K = 0 dies in `torch.stack`). -/
theorem _ssp_iteration_ok_spec (target_model draft_model : Model)
    (sample_fn : Row → Token) (pexp : ℚ → ℚ) (temp : ℚ) (rsrc : ℕ → ℚ)
    (input_ids : List Token) (K r : ℕ) (ids' : List Token) (cnt r' : ℕ)
    (h : _ssp_iteration target_model draft_model sample_fn pexp temp rsrc
      input_ids K r = .ok (ids', cnt, r')) :
    (∃ ext, ids' = input_ids ++ ext) ∧
      ids'.length = input_ids.length + cnt + 1 ∧ cnt ≤ K ∧ 1 ≤ K := by
  rw [_ssp_iteration] at h
  split at h
  case h_1 e heq => simp at h
  case h_2 inputs_plus_k draft_logits hd =>
    have hK : 1 ≤ K := by
      obtain ⟨ext, h1, h2, h3⟩ := draftStep_spec draft_model sample_fn K input_ids
      rw [_draft_sample_k] at hd
      by_cases hemp : (draftStep draft_model sample_fn K input_ids).2.isEmpty
      · rw [if_pos hemp] at hd; cases hd
      · rcases Nat.eq_zero_or_pos K with h0 | h1
        · exfalso
          apply hemp
          rw [List.isEmpty_iff, ← List.length_eq_zero, h3, h0]
        · exact h1
    have hsteps :
        (_ssp_specSteps target_model pexp temp input_ids inputs_plus_k draft_logits
          K).length = K := by
      simp [_ssp_specSteps]
    dsimp only at h
    split at h
    case h_1 e hl => simp at h
    case h_2 lids c b rr hl =>
      rcases acceptLoop_ok_spec rsrc _ input_ids 0 r lids c b rr hl with hA | hR
      · obtain ⟨hb, hc, hi, hr⟩ := hA
        rw [hb, if_pos rfl] at h
        simp only [Except.ok.injEq, Prod.mk.injEq] at h
        obtain ⟨h1, h2, h3⟩ := h
        refine ⟨⟨_, by rw [← h1, hi, List.append_assoc]⟩, ?_, ?_, hK⟩
        · rw [← h1, hi]
          simp [hsteps, ← h2, hc]
          omega
        · omega
      · obtain ⟨hb, j, x, hj, hc, hi, hr⟩ := hR
        rw [hb] at h
        simp only [Bool.false_eq_true, if_false, Except.ok.injEq, Prod.mk.injEq] at h
        obtain ⟨h1, h2, h3⟩ := h
        refine ⟨⟨_, by rw [← h1, hi, List.append_assoc]⟩, ?_, ?_, hK⟩
        · rw [← h1, hi]
          have hlen : ((_ssp_specSteps target_model pexp temp input_ids inputs_plus_k
              draft_logits K).take j).length = j := by
            rw [List.length_take]
            omega
          simp [hlen, ← h2, hc]
          omega
        · omega

/-- The `while input_ids.shape[1] < T + min_nb_tokens` loop of `ssp`
(ssp.py lines 96-100) with its counter updates
(`accept_tokens += accept_count`, `generated_tokens += K`); `stop` is the
precomputed bound `T + min_nb_tokens`. Termination rests on the liveness
fact that a successful iteration commits at least one token. -/
def sspLoop (target_model draft_model : Model) (sample_fn : Row → Token)
    (pexp : ℚ → ℚ) (temp : ℚ) (rsrc : ℕ → ℚ) (stop : ℤ) (K : ℕ)
    (input_ids : List Token) (accept_tokens generated_tokens r : ℕ) :
    Except String (List Token × ℕ × ℕ) :=
  if h : (input_ids.length : ℤ) < stop then
    match h2 : _ssp_iteration target_model draft_model sample_fn pexp temp rsrc
        input_ids K r with
    | .error e => .error e
    | .ok (ids', accept_count, r') =>
      sspLoop target_model draft_model sample_fn pexp temp rsrc stop K ids'
        (accept_tokens + accept_count) (generated_tokens + K) r'
  else .ok (input_ids, accept_tokens, generated_tokens)
termination_by (stop - input_ids.length).toNat
decreasing_by
  have hp := _ssp_iteration_ok_spec target_model draft_model sample_fn pexp temp
    rsrc input_ids K r ids' accept_count r' h2
  have hlen := hp.2.1
  omega

/-- Shallow embedding of `ssp` (ssp.py lines 91-102): unpack the batch
shape, assert B = 1 (the AssertionError message is the error value),
then run the generation loop on row 0 starting from zero counters and the
initial seeded RNG state. `display` is a pure side channel and omitted. -/
def ssp (target_model draft_model : Model) (sample_fn : Row → Token)
    (pexp : ℚ → ℚ) (temp : ℚ) (rsrc : ℕ → ℚ) (min_nb_tokens : ℤ)
    (input_ids : List (List Token)) (K : ℕ) :
    Except String (List Token × ℕ × ℕ) :=
  let B := input_ids.length
  let T := (input_ids.getD 0 []).length
  if B = 1 then
    sspLoop target_model draft_model sample_fn pexp temp rsrc
      ((T : ℤ) + min_nb_tokens) K (input_ids.getD 0 []) 0 0 0
  else .error "Batch size must be 1, implement the fixes for B > 1"

/-- Example model for concrete instantiations: at every position the
logits row is `[0, 0]` over a two-token vocabulary. -/
def exModel : Model := fun s => s.map (fun _ => [0, 0]) ++ [[0, 0]]

/-- Example model whose softmax distribution puts all mass on token 0. -/
def exTargetModel : Model := fun s => s.map (fun _ => [1, 0]) ++ [[1, 0]]

/-- Example model whose softmax distribution puts all mass on token 1. -/
def exDraftModel : Model := fun s => s.map (fun _ => [0, 1]) ++ [[0, 1]]

/-- Example sampling strategy: always pick token 1. -/
def exSample : Row → Token := fun _ => 1

/-- Example positive stand-in for the exponential. -/
def exPexp : ℚ → ℚ := fun _ => 1

/-- Example identity stand-in for the exponential (normalizes raw logits). -/
def exPexpId : ℚ → ℚ := fun x => x

/-- Example seeded random source: every uniform draw is 0. -/
def exRand : ℕ → ℚ := fun _ => 0

/-- Relational semantics of the generation loop of `ssp`: one `step` per
`while`-iteration, with the uniform draws and categorical draws all taken
from the single seeded source `rsrc` at the threaded counter. Two runs
with the same seed (same `rsrc`, same starting counter) are two
derivations from the same state. -/
inductive SspRun (target_model draft_model : Model) (sample_fn : Row → Token)
    (pexp : ℚ → ℚ) (temp : ℚ) (rsrc : ℕ → ℚ) (stop : ℤ) (K : ℕ) :
    List Token → ℕ → ℕ → ℕ → Except String (List Token × ℕ × ℕ) → Prop where
  | done {ids : List Token} {acc gen r : ℕ} :
      ¬((ids.length : ℤ) < stop) →
      SspRun target_model draft_model sample_fn pexp temp rsrc stop K ids acc gen r
        (.ok (ids, acc, gen))
  | fail {ids : List Token} {acc gen r : ℕ} {e : String} :
      ((ids.length : ℤ) < stop) →
      _ssp_iteration target_model draft_model sample_fn pexp temp rsrc ids K r =
        .error e →
      SspRun target_model draft_model sample_fn pexp temp rsrc stop K ids acc gen r
        (.error e)
  | step {ids ids' : List Token} {acc gen r cnt r' : ℕ}
      {out : Except String (List Token × ℕ × ℕ)} :
      ((ids.length : ℤ) < stop) →
      _ssp_iteration target_model draft_model sample_fn pexp temp rsrc ids K r =
        .ok (ids', cnt, r') →
      SspRun target_model draft_model sample_fn pexp temp rsrc stop K ids'
        (acc + cnt) (gen + K) r' out →
      SspRun target_model draft_model sample_fn pexp temp rsrc stop K ids acc gen r
        out

/-- Invariant of a successful generation loop run: over some number n of
iterations the attempted counter grows by exactly n·K, the accepted
counter grows by at most n·K, and the sequence grows by exactly the
accepted increment plus one uncounted token (replacement or bonus) per
iteration, only ever by appending. -/
theorem sspLoop_ok_spec (target_model draft_model : Model)
    (sample_fn : Row → Token) (pexp : ℚ → ℚ) (temp : ℚ) (rsrc : ℕ → ℚ)
    (stop : ℤ) (K : ℕ) :
    ∀ (input_ids : List Token) (acc gen r : ℕ) (out : List Token)
      (acc' gen' : ℕ),
      sspLoop target_model draft_model sample_fn pexp temp rsrc stop K
        input_ids acc gen r = .ok (out, acc', gen') →
      ∃ n, gen' = gen + n * K ∧ acc ≤ acc' ∧ acc' - acc ≤ n * K ∧
        out.length = input_ids.length + (acc' - acc) + n ∧
        ∃ ext, out = input_ids ++ ext := by
  suffices H : ∀ (m : ℕ) (input_ids : List Token) (acc gen r : ℕ)
      (out : List Token) (acc' gen' : ℕ),
      (stop - (input_ids.length : ℤ)).toNat ≤ m →
      sspLoop target_model draft_model sample_fn pexp temp rsrc stop K
        input_ids acc gen r = .ok (out, acc', gen') →
      ∃ n, gen' = gen + n * K ∧ acc ≤ acc' ∧ acc' - acc ≤ n * K ∧
        out.length = input_ids.length + (acc' - acc) + n ∧
        ∃ ext, out = input_ids ++ ext by
    intro ids acc gen r out acc' gen' h
    exact H (stop - (ids.length : ℤ)).toNat ids acc gen r out acc' gen' le_rfl h
  intro m
  induction m with
  | zero =>
    intro ids acc gen r out acc' gen' hm h
    rw [sspLoop, dif_neg (by omega)] at h
    simp only [Except.ok.injEq, Prod.mk.injEq] at h
    obtain ⟨h1, h2, h3⟩ := h
    exact ⟨0, by omega, by omega, by omega, by simp [← h1, ← h2], [], by simp [← h1]⟩
  | succ m ih =>
    intro ids acc gen r out acc' gen' hm h
    rw [sspLoop] at h
    by_cases hc : (ids.length : ℤ) < stop
    · rw [dif_pos hc] at h
      split at h
      next e heq => simp at h
      next ids1 cnt r1 heq =>
        have hp := _ssp_iteration_ok_spec target_model draft_model sample_fn pexp
          temp rsrc ids K r ids1 cnt r1 heq
        obtain ⟨⟨ext0, hext0⟩, hlen1, hcnt, hK1⟩ := hp
        obtain ⟨n, hgen, hacc, hbound, hlen, ext, hext⟩ :=
          ih ids1 (acc + cnt) (gen + K) r1 out acc' gen' (by omega) h
        refine ⟨n + 1, ?_, by omega, ?_, by omega, ext0 ++ ext, ?_⟩
        · rw [Nat.succ_mul]
          omega
        · rw [Nat.succ_mul]
          omega
        · rw [hext, hext0, List.append_assoc]
    · rw [dif_neg hc] at h
      simp only [Except.ok.injEq, Prod.mk.injEq] at h
      obtain ⟨h1, h2, h3⟩ := h
      exact ⟨0, by omega, by omega, by omega, by simp [← h1, ← h2], [], by simp [← h1]⟩

/-- The generation loop realizes the relational semantics: its result is a
possible run from the same state. -/
theorem sspLoop_realizes (target_model draft_model : Model)
    (sample_fn : Row → Token) (pexp : ℚ → ℚ) (temp : ℚ) (rsrc : ℕ → ℚ)
    (stop : ℤ) (K : ℕ) :
    ∀ (input_ids : List Token) (acc gen r : ℕ),
      SspRun target_model draft_model sample_fn pexp temp rsrc stop K input_ids
        acc gen r
        (sspLoop target_model draft_model sample_fn pexp temp rsrc stop K
          input_ids acc gen r) := by
  suffices H : ∀ (m : ℕ) (input_ids : List Token) (acc gen r : ℕ),
      (stop - (input_ids.length : ℤ)).toNat ≤ m →
      SspRun target_model draft_model sample_fn pexp temp rsrc stop K input_ids
        acc gen r
        (sspLoop target_model draft_model sample_fn pexp temp rsrc stop K
          input_ids acc gen r) by
    exact fun ids acc gen r => H (stop - (ids.length : ℤ)).toNat ids acc gen r le_rfl
  intro m
  induction m with
  | zero =>
    intro ids acc gen r hm
    rw [sspLoop, dif_neg (by omega)]
    exact SspRun.done (by omega)
  | succ m ih =>
    intro ids acc gen r hm
    rw [sspLoop]
    by_cases hc : (ids.length : ℤ) < stop
    · rw [dif_pos hc]
      cases heq : _ssp_iteration target_model draft_model sample_fn pexp temp rsrc
          ids K r with
      | error e => exact SspRun.fail hc heq
      | ok trip =>
        obtain ⟨ids', cnt, r'⟩ := trip
        have hp := _ssp_iteration_ok_spec target_model draft_model sample_fn pexp
          temp rsrc ids K r ids' cnt r' heq
        have hlen := hp.2.1
        exact SspRun.step hc heq
          (ih ids' (acc + cnt) (gen + K) r' (by omega))
    · rw [dif_neg hc]
      exact SspRun.done hc

/-- C8: determinism given seeded randomness. Two runs of the generation
loop with the same models, the same sampling strategy, the same
temperature softmax, the same input sequence, the same stopping bound
(T + min_nb_tokens), the same K, and the same seeded random source in the
same initial state produce identical output sequences and identical
accepted/attempted counters. -/
theorem C8_run_deterministic (target_model draft_model : Model)
    (sample_fn : Row → Token) (pexp : ℚ → ℚ) (temp : ℚ) (rsrc : ℕ → ℚ)
    (stop : ℤ) (K : ℕ) (input_ids : List Token) (acc gen r : ℕ)
    (o1 o2 : Except String (List Token × ℕ × ℕ))
    (h1 : SspRun target_model draft_model sample_fn pexp temp rsrc stop K
      input_ids acc gen r o1)
    (h2 : SspRun target_model draft_model sample_fn pexp temp rsrc stop K
      input_ids acc gen r o2) :
    o1 = o2 := by
  induction h1 generalizing o2 with
  | done hstop =>
    cases h2 with
    | done _ => rfl
    | fail hlt _ => exact absurd hlt hstop
    | step hlt _ _ => exact absurd hlt hstop
  | fail hlt heq =>
    cases h2 with
    | done hstop => exact absurd hlt hstop
    | fail _ heq2 =>
      rw [heq] at heq2
      injection heq2 with h
      rw [h]
    | step _ heq2 _ =>
      rw [heq] at heq2
      cases heq2
  | step hlt heq hrun ih =>
    cases h2 with
    | done hstop => exact absurd hlt hstop
    | fail _ heq2 =>
      rw [heq] at heq2
      cases heq2
    | step _ heq2 hrun2 =>
      rw [heq] at heq2
      injection heq2 with h
      injection h with hA h'
      injection h' with hB hC
      subst hA
      subst hB
      subst hC
      exact ih _ hrun2

/-- Every entry of a temperature-softmax row is non-negative, as long as
the exponential stand-in is positive. -/
theorem gtd_mem_nonneg (pexp : ℚ → ℚ) (hpexp : ∀ x, 0 < pexp x) (temp : ℚ)
    (l : Row) : ∀ x ∈ get_temperature_distribution pexp temp l, 0 ≤ x := by
  intro x hx
  simp only [get_temperature_distribution] at hx
  obtain ⟨y, hy, rfl⟩ := List.mem_map.mp hx
  apply div_nonneg
  · obtain ⟨z, hz, rfl⟩ := List.mem_map.mp hy
    exact (hpexp _).le
  · apply List.sum_nonneg
    intro a ha
    obtain ⟨z, hz, rfl⟩ := List.mem_map.mp ha
    exact (hpexp _).le

/-- Indexing with default 0 into a row of non-negative entries is
non-negative. -/
theorem getD_nonneg_of_forall (l : Row) (hl : ∀ x ∈ l, 0 ≤ x) (i : ℕ) :
    0 ≤ l.getD i 0 := by
  rw [List.getD_eq_getElem?_getD]
  cases h : l[i]? with
  | none => simp
  | some x =>
    simp only [Option.getD_some]
    exact hl x (List.getElem?_mem h)

/-- Concrete evaluation: the uniform-logits softmax over two tokens. -/
theorem exDist_eval : get_temperature_distribution exPexp 1 [0, 0] = [1/2, 1/2] := by
  simp [get_temperature_distribution, exPexp]
  norm_num

/-- Concrete evaluation: drafting two tokens from the example model. -/
theorem exDraft_eval :
    _draft_sample_k exModel exSample [3] 2 = .ok ([3, 1, 1], [[0, 0], [0, 0]]) := by
  rfl

/-- Concrete evaluation: the accept/reject step data of the example run. -/
theorem exSteps_eval : _ssp_specSteps exModel exPexp 1 [3] [3, 1, 1] [[0, 0], [0, 0]] 2 =
    [([1/2, 1/2], [1/2, 1/2], 1), ([1/2, 1/2], [1/2, 1/2], 1)] := by
  simp [_ssp_specSteps, _ssp_target_logits, lastSlice, exModel, List.range_succ,
    exDist_eval]

/-- Concrete evaluation: with identical rows both draws accept. -/
theorem exLoop_eval :
    acceptLoop exRand [([1/2, 1/2], [1/2, 1/2], 1), ([1/2, 1/2], [1/2, 1/2], 1)]
      [3] 0 0 = .ok ([3, 1, 1], 2, true, 2) := by
  have hc : ∀ n, exRand n < sampled_ratios [1/2, 1/2] [1/2, 1/2] 1 := by
    intro n
    simp [exRand, sampled_ratios]
  rw [acceptLoop, if_pos (hc 0), acceptLoop, if_pos (hc 1), acceptLoop]
  simp

/-- Concrete evaluation: one full example iteration accepts both draft
tokens and appends the bonus token. -/
theorem exIter_eval :
    _ssp_iteration exModel exModel exSample exPexp 1 exRand [3] 2 0 =
      .ok ([3, 1, 1, 1], 2, 2) := by
  rw [_ssp_iteration, exDraft_eval]
  dsimp only
  rw [exSteps_eval, exLoop_eval]
  simp [exSample]

/-- Concrete evaluation: the generation loop on the example run stops
after one iteration. -/
theorem exLoopRun_eval :
    sspLoop exModel exModel exSample exPexp 1 exRand 3 2 [3] 0 0 0 =
      .ok ([3, 1, 1, 1], 2, 2) := by
  rw [sspLoop.eq_def]
  rw [dif_pos (by norm_num)]
  split
  next e he =>
    rw [exIter_eval] at he
    simp at he
  next ids' cnt r' he =>
    rw [exIter_eval] at he
    injection he with h
    injection h with hA h'
    injection h' with hB hC
    subst hA
    subst hB
    subst hC
    rw [sspLoop.eq_def, dif_neg (by norm_num)]

/-- Concrete evaluation: the full `ssp` entry point on the example run. -/
theorem exSsp_eval :
    ssp exModel exModel exSample exPexp 1 exRand 2 [[3]] 2 =
      .ok ([3, 1, 1, 1], 2, 2) := by
  rw [ssp]
  norm_num [exLoopRun_eval]

/-- C1: a successful call to `_ssp_iteration` with K ≥ 1 on a committed
sequence of length T returns a sequence whose length lies strictly between
T (at least T+1: no iteration commits zero tokens) and T+K+1, and whose
first T tokens are the input unchanged. -/
theorem C1_iteration_progress_bounds (target_model draft_model : Model)
    (sample_fn : Row → Token) (pexp : ℚ → ℚ) (temp : ℚ) (rsrc : ℕ → ℚ)
    (input_ids : List Token) (K r : ℕ) (ids' : List Token) (cnt r' : ℕ)
    (hK : 1 ≤ K)
    (h : _ssp_iteration target_model draft_model sample_fn pexp temp rsrc
      input_ids K r = .ok (ids', cnt, r')) :
    input_ids.length + 1 ≤ ids'.length ∧
      ids'.length ≤ input_ids.length + K + 1 ∧
      ids'.take input_ids.length = input_ids := by
  obtain ⟨⟨ext, hext⟩, hlen, hcnt, hK1⟩ :=
    _ssp_iteration_ok_spec target_model draft_model sample_fn pexp temp rsrc
      input_ids K r ids' cnt r' h
  refine ⟨by omega, by omega, ?_⟩
  rw [hext, List.take_left]

/-- C1 witness: a concrete iteration with K = 2 on [3] returns
[3, 1, 1, 1], within the required bounds and preserving the prefix. -/
theorem C1_iteration_progress_bounds_witness :
    ([3] : List Token).length + 1 ≤ ([3, 1, 1, 1] : List Token).length ∧
      ([3, 1, 1, 1] : List Token).length ≤ ([3] : List Token).length + 2 + 1 ∧
      ([3, 1, 1, 1] : List Token).take ([3] : List Token).length = [3] :=
  C1_iteration_progress_bounds exModel exModel exSample exPexp 1 exRand [3] 2 0
    [3, 1, 1, 1] 2 2 (by decide) exIter_eval

/-- C4: for any input logits, the importance ratio of the accept/reject
test — target softmax probability over draft softmax probability at the
sampled token, clamped by `torch.min` against 1 — lies in [0, 1], because
temperature-softmax entries are non-negative. -/
theorem C4_clamped_ratio_in_unit_interval (pexp : ℚ → ℚ)
    (hpexp : ∀ x, 0 < pexp x) (temp : ℚ) (target_logits draft_logits : Row)
    (tok : Token) :
    0 ≤ sampled_ratios (get_temperature_distribution pexp temp target_logits)
        (get_temperature_distribution pexp temp draft_logits) tok ∧
      sampled_ratios (get_temperature_distribution pexp temp target_logits)
        (get_temperature_distribution pexp temp draft_logits) tok ≤ 1 := by
  constructor
  · refine le_min (div_nonneg ?_ ?_) zero_le_one
    · exact getD_nonneg_of_forall _ (gtd_mem_nonneg pexp hpexp temp target_logits) tok
    · exact getD_nonneg_of_forall _ (gtd_mem_nonneg pexp hpexp temp draft_logits) tok
  · exact min_le_right _ _

/-- C4 witness at a concrete positive exponential and concrete logits. -/
theorem C4_clamped_ratio_in_unit_interval_witness :
    0 ≤ sampled_ratios (get_temperature_distribution exPexp 1 [0, 0])
        (get_temperature_distribution exPexp 1 [0, 0]) 0 ∧
      sampled_ratios (get_temperature_distribution exPexp 1 [0, 0])
        (get_temperature_distribution exPexp 1 [0, 0]) 0 ≤ 1 :=
  C4_clamped_ratio_in_unit_interval exPexp (fun _ => one_pos) 1 [0, 0] [0, 0] 0

/-- C8 witness: the theorem applied to two runs of the concrete example
loop, whose derivations come from the realization lemma. -/
theorem C8_run_deterministic_witness :
    sspLoop exModel exModel exSample exPexp 1 exRand 3 2 [3] 0 0 0 =
      sspLoop exModel exModel exSample exPexp 1 exRand 3 2 [3] 0 0 0 :=
  C8_run_deterministic exModel exModel exSample exPexp 1 exRand 3 2 [3] 0 0 0 _ _
    (sspLoop_realizes exModel exModel exSample exPexp 1 exRand 3 2 [3] 0 0 0)
    (sspLoop_realizes exModel exModel exSample exPexp 1 exRand 3 2 [3] 0 0 0)

/-- C2: when the draft distribution dominates the target everywhere at the
rejected position, the pre-normalized corrective mass is zero; the code
performs the zero-mass normalization silently (the resulting degenerate
all-zero row stands for the NaN tensor torch produces from 0/0), and the
failure surfaces only as the generic validity error of the downstream
`torch.multinomial` library call — there is no fail-fast descriptive error
in the rejection-resampling step itself. -/
theorem C2_zero_mass_no_explicit_check (u : ℚ) :
    correctiveDistribution [1/2, 1/2] [1/2, 1/2] = [0, 0] ∧
      _target_sample_from_distribution [1/2, 1/2] [1/2, 1/2] u =
        .error "invalid multinomial distribution" := by
  have h1 : correctiveDistribution [1/2, 1/2] [1/2, 1/2] = [0, 0] := by
    simp [correctiveDistribution]
  refine ⟨h1, ?_⟩
  rw [_target_sample_from_distribution, h1, torchMultinomial]
  norm_num

/-- C3 counterexample: a call with min_nb_tokens = 0 ≤ 0 and K = 0 < 1 is
not rejected with an error; `ssp` silently returns the input unchanged
with zero counters. -/
theorem C3_counterexample :
    ssp exModel exModel exSample exPexp 1 exRand 0 [[1, 2, 3]] 0 =
      .ok ([1, 2, 3], 0, 0) := by
  rw [ssp]
  rw [if_pos (by simp)]
  simp only [List.getD_cons_zero]
  rw [sspLoop.eq_def, dif_neg (by norm_num)]

/-- C3 amended: only a batch of more than one sequence is rejected (by the
assertion) before any model invocation — the error is the same for every
model, so no model is consulted. A request with min_nb_tokens ≤ 0 is not
an error: the generation loop never runs and the input row is returned
unchanged with zero counters. K < 1 is not validated at entry: with K = 0
and min_nb_tokens ≥ 1 the failure is the torch.stack-on-empty-list
RuntimeError inside the draft sampler during the first iteration, again
before any model forward pass. -/
theorem C3_precondition_checks :
    (∀ (target_model draft_model : Model) (sample_fn : Row → Token)
        (pexp : ℚ → ℚ) (temp : ℚ) (rsrc : ℕ → ℚ) (min_nb_tokens : ℤ)
        (batch : List (List Token)) (K : ℕ),
        batch.length ≠ 1 →
        ssp target_model draft_model sample_fn pexp temp rsrc min_nb_tokens
          batch K = .error "Batch size must be 1, implement the fixes for B > 1") ∧
    (∀ (target_model draft_model : Model) (sample_fn : Row → Token)
        (pexp : ℚ → ℚ) (temp : ℚ) (rsrc : ℕ → ℚ) (min_nb_tokens : ℤ)
        (ids : List Token) (K : ℕ),
        min_nb_tokens ≤ 0 →
        ssp target_model draft_model sample_fn pexp temp rsrc min_nb_tokens
          [ids] K = .ok (ids, 0, 0)) ∧
    (∀ (target_model draft_model : Model) (sample_fn : Row → Token)
        (pexp : ℚ → ℚ) (temp : ℚ) (rsrc : ℕ → ℚ) (min_nb_tokens : ℤ)
        (ids : List Token),
        1 ≤ min_nb_tokens →
        ssp target_model draft_model sample_fn pexp temp rsrc min_nb_tokens
          [ids] 0 = .error "stack expects a non-empty TensorList") := by
  refine ⟨?_, ?_, ?_⟩
  · intro target_model draft_model sample_fn pexp temp rsrc min_nb_tokens batch K hB
    rw [ssp]
    rw [if_neg hB]
  · intro target_model draft_model sample_fn pexp temp rsrc min_nb_tokens ids K hmin
    rw [ssp]
    rw [if_pos (by simp)]
    simp only [List.getD_cons_zero]
    rw [sspLoop.eq_def, dif_neg (by omega)]
  · intro target_model draft_model sample_fn pexp temp rsrc min_nb_tokens ids hmin
    rw [ssp]
    rw [if_pos (by simp)]
    simp only [List.getD_cons_zero]
    rw [sspLoop.eq_def, dif_pos (by omega)]
    have hit : _ssp_iteration target_model draft_model sample_fn pexp temp rsrc
        ids 0 0 = .error "stack expects a non-empty TensorList" := rfl
    split
    next e he =>
      rw [hit] at he
      injection he with h
      rw [← h]
    next ids' cnt r' he =>
      rw [hit] at he
      simp at he

/-- C3 amended witness: the three behaviors at concrete inputs. -/
theorem C3_precondition_checks_witness :
    ssp exModel exModel exSample exPexp 1 exRand 5 [[1, 2], [3, 4]] 4 =
        .error "Batch size must be 1, implement the fixes for B > 1" ∧
      ssp exModel exModel exSample exPexp 1 exRand 0 [[1, 2]] 4 =
        .ok ([1, 2], 0, 0) ∧
      ssp exModel exModel exSample exPexp 1 exRand 1 [[1, 2]] 0 =
        .error "stack expects a non-empty TensorList" :=
  ⟨(C3_precondition_checks).1 exModel exModel exSample exPexp 1 exRand 5
      [[1, 2], [3, 4]] 4 (by decide),
    (C3_precondition_checks).2.1 exModel exModel exSample exPexp 1 exRand 0
      [1, 2] 4 (by decide),
    (C3_precondition_checks).2.2 exModel exModel exSample exPexp 1 exRand 1
      [1, 2] (by decide)⟩

/-- C5: the attempted counter grows by exactly K on every iteration of the
generation loop (n iterations give n·K), the accepted counter grows per
iteration by that iteration's accept count, which never exceeds K (so the
total is at most n·K), and the bonus/replacement token is never counted as
accepted: the final length is the initial length plus the accepted total
plus exactly one uncounted token per iteration. -/
theorem C5_counter_updates (target_model draft_model : Model)
    (sample_fn : Row → Token) (pexp : ℚ → ℚ) (temp : ℚ) (rsrc : ℕ → ℚ) :
    (∀ (ids1 : List Token) (K1 r1 : ℕ) (ids' : List Token) (cnt r' : ℕ),
        _ssp_iteration target_model draft_model sample_fn pexp temp rsrc ids1
          K1 r1 = .ok (ids', cnt, r') → cnt ≤ K1) ∧
    (∀ (min_nb_tokens : ℤ) (ids : List Token) (K : ℕ) (out : List Token)
        (acc gen : ℕ),
        ssp target_model draft_model sample_fn pexp temp rsrc min_nb_tokens
          [ids] K = .ok (out, acc, gen) →
        ∃ n, gen = n * K ∧ acc ≤ n * K ∧
          out.length = ids.length + acc + n) := by
  constructor
  · intro ids1 K1 r1 ids' cnt r' h
    exact (_ssp_iteration_ok_spec target_model draft_model sample_fn pexp temp
      rsrc ids1 K1 r1 ids' cnt r' h).2.2.1
  · intro min_nb_tokens ids K out acc gen h
    rw [ssp] at h
    rw [if_pos (by simp)] at h
    simp only [List.getD_cons_zero] at h
    obtain ⟨n, hg, ha, hb, hl, _⟩ := sspLoop_ok_spec target_model draft_model
      sample_fn pexp temp rsrc ((ids.length : ℤ) + min_nb_tokens) K ids 0 0 0
      out acc gen h
    refine ⟨n, by simpa using hg, by simpa using hb, by simpa using hl⟩

/-- C5 witness: the concrete example run (one iteration, K = 2, both
speculative tokens accepted, the bonus token uncounted). -/
theorem C5_counter_updates_witness :
    2 ≤ 2 ∧ ∃ n, 2 = n * 2 ∧ 2 ≤ n * 2 ∧
      ([3, 1, 1, 1] : List Token).length = ([3] : List Token).length + 2 + n :=
  ⟨(C5_counter_updates exModel exModel exSample exPexp 1 exRand).1 [3] 2 0
      [3, 1, 1, 1] 2 2 exIter_eval,
    (C5_counter_updates exModel exModel exSample exPexp 1 exRand).2 2 [3] 2
      [3, 1, 1, 1] 2 2 exSsp_eval⟩

/-- C10: each successful iteration appends exactly accept_count + 1 tokens
(accepted tokens plus one replacement or bonus token), and a successful
`ssp` run over n iterations therefore ends with length equal to the
initial length plus the accepted total plus n. -/
theorem C10_commit_accounting (target_model draft_model : Model)
    (sample_fn : Row → Token) (pexp : ℚ → ℚ) (temp : ℚ) (rsrc : ℕ → ℚ) :
    (∀ (ids1 : List Token) (K1 r1 : ℕ) (ids' : List Token) (cnt r' : ℕ),
        _ssp_iteration target_model draft_model sample_fn pexp temp rsrc ids1
          K1 r1 = .ok (ids', cnt, r') →
        ids'.length = ids1.length + cnt + 1) ∧
    (∀ (min_nb_tokens : ℤ) (ids : List Token) (K : ℕ) (out : List Token)
        (acc gen : ℕ),
        ssp target_model draft_model sample_fn pexp temp rsrc min_nb_tokens
          [ids] K = .ok (out, acc, gen) →
        ∃ n, gen = n * K ∧ out.length = ids.length + acc + n) := by
  constructor
  · intro ids1 K1 r1 ids' cnt r' h
    exact (_ssp_iteration_ok_spec target_model draft_model sample_fn pexp temp
      rsrc ids1 K1 r1 ids' cnt r' h).2.1
  · intro min_nb_tokens ids K out acc gen h
    rw [ssp] at h
    rw [if_pos (by simp)] at h
    simp only [List.getD_cons_zero] at h
    obtain ⟨n, hg, ha, hb, hl, _⟩ := sspLoop_ok_spec target_model draft_model
      sample_fn pexp temp rsrc ((ids.length : ℤ) + min_nb_tokens) K ids 0 0 0
      out acc gen h
    refine ⟨n, by simpa using hg, by simpa using hl⟩

/-- C10 witness: the concrete example run. -/
theorem C10_commit_accounting_witness :
    ([3, 1, 1, 1] : List Token).length = ([3] : List Token).length + 2 + 1 ∧
      ∃ n, 2 = n * 2 ∧
        ([3, 1, 1, 1] : List Token).length = ([3] : List Token).length + 2 + n :=
  ⟨(C10_commit_accounting exModel exModel exSample exPexp 1 exRand).1 [3] 2 0
      [3, 1, 1, 1] 2 2 exIter_eval,
    (C10_commit_accounting exModel exModel exSample exPexp 1 exRand).2 2 [3] 2
      [3, 1, 1, 1] 2 2 exSsp_eval⟩

/-- When every step's target row equals its draft row (with positive mass
at the sampled token) and every uniform draw is below 1, the accept/reject
loop accepts every step: the ratio is p/p = 1 after clamping and u < 1
always accepts. -/
theorem acceptLoop_all_accept (rsrc : ℕ → ℚ) (hu : ∀ n, rsrc n < 1) :
    ∀ (steps : List SpecStep) (ids : List Token) (cnt r : ℕ),
      (∀ s ∈ steps, s.1 = s.2.1 ∧ 0 < s.2.1.getD s.2.2 0) →
      acceptLoop rsrc steps ids cnt r =
        .ok (ids ++ steps.map stepTok, cnt + steps.length, true,
          r + steps.length) := by
  intro steps
  induction steps with
  | nil =>
    intro ids cnt r _
    simp [acceptLoop]
  | cons s rest ih =>
    intro ids cnt r hpos
    obtain ⟨trow, drow, tok⟩ := s
    have hs := hpos (trow, drow, tok) (List.mem_cons_self _ _)
    have hratio : sampled_ratios trow drow tok = 1 := by
      have h1 : trow = drow := hs.1
      have h2 : (0 : ℚ) < drow.getD tok 0 := hs.2
      rw [sampled_ratios, h1, div_self (ne_of_gt h2), min_self]
    rw [acceptLoop, if_pos (by rw [hratio]; exact hu r)]
    rw [ih (ids ++ [tok]) (cnt + 1) (r + 1)
      (fun s hs2 => hpos s (List.mem_cons_of_mem _ hs2))]
    simp [stepTok, Nat.add_assoc, Nat.add_comm, Nat.add_left_comm]

/-- C6: when the target distribution equals the draft distribution at
every speculative position (with positive probability at the sampled
token) and every uniform draw lies in [0, 1), every one of the K draft
tokens is accepted, no rejection occurs, and the iteration commits K+1
tokens: the K draft tokens plus the bonus token. -/
theorem C6_identical_distributions_all_accepted (target_model draft_model : Model)
    (sample_fn : Row → Token) (pexp : ℚ → ℚ) (temp : ℚ) (rsrc : ℕ → ℚ)
    (input_ids : List Token) (K r : ℕ) (inputs_plus_k : List Token)
    (draft_logits : List Row)
    (hu : ∀ n, rsrc n < 1)
    (hd : _draft_sample_k draft_model sample_fn input_ids K =
      .ok (inputs_plus_k, draft_logits))
    (hsame : ∀ s ∈ _ssp_specSteps target_model pexp temp input_ids inputs_plus_k
      draft_logits K, s.1 = s.2.1 ∧ 0 < s.2.1.getD s.2.2 0) :
    _ssp_iteration target_model draft_model sample_fn pexp temp rsrc input_ids
        K r =
      .ok (input_ids ++
        (_ssp_specSteps target_model pexp temp input_ids inputs_plus_k
          draft_logits K).map stepTok ++
        [sample_fn ((_ssp_target_logits target_model inputs_plus_k K).getLastD [])],
        K, r + K) ∧
    (input_ids ++
        (_ssp_specSteps target_model pexp temp input_ids inputs_plus_k
          draft_logits K).map stepTok ++
        [sample_fn ((_ssp_target_logits target_model inputs_plus_k K).getLastD [])]).length =
      input_ids.length + K + 1 := by
  have hsteps :
      (_ssp_specSteps target_model pexp temp input_ids inputs_plus_k draft_logits
        K).length = K := by
    simp [_ssp_specSteps]
  constructor
  · rw [_ssp_iteration, hd]
    dsimp only
    rw [acceptLoop_all_accept rsrc hu _ input_ids 0 r hsame]
    simp [hsteps, _ssp_target_logits]
  · simp [hsteps]
    omega

/-- Concrete evaluation: membership description of the example steps. -/
theorem exSame_eval :
    ∀ s ∈ _ssp_specSteps exModel exPexp 1 [3] [3, 1, 1] [[0, 0], [0, 0]] 2,
      s.1 = s.2.1 ∧ 0 < s.2.1.getD s.2.2 0 := by
  intro s hs
  rw [exSteps_eval] at hs
  simp only [List.mem_cons, List.not_mem_nil, or_false] at hs
  rcases hs with h | h <;> subst h <;>
    refine ⟨rfl, ?_⟩ <;>
    · show (0 : ℚ) < ([1/2, 1/2] : Row).getD 1 0
      norm_num [List.getD]

/-- C6 witness: the concrete example run where target and draft
distributions coincide; both draft tokens and the bonus token commit. -/
theorem C6_identical_distributions_all_accepted_witness :
    _ssp_iteration exModel exModel exSample exPexp 1 exRand [3] 2 0 =
      .ok ([3] ++
        (_ssp_specSteps exModel exPexp 1 [3] [3, 1, 1] [[0, 0], [0, 0]] 2).map
          stepTok ++
        [exSample ((_ssp_target_logits exModel [3, 1, 1] 2).getLastD [])],
        2, 0 + 2) ∧
    ([3] ++
        (_ssp_specSteps exModel exPexp 1 [3] [3, 1, 1] [[0, 0], [0, 0]] 2).map
          stepTok ++
        [exSample ((_ssp_target_logits exModel [3, 1, 1] 2).getLastD [])]).length =
      ([3] : List Token).length + 2 + 1 :=
  C6_identical_distributions_all_accepted exModel exModel exSample exPexp 1 exRand
    [3] 2 0 [3, 1, 1] [[0, 0], [0, 0]] (fun n => by norm_num [exRand])
    exDraft_eval exSame_eval

/-- The last element of a non-empty list (with a default) is a member. -/
theorem getLastD_mem {α : Type} (l : List α) (d : α) (h : l ≠ []) :
    l.getLastD d ∈ l := by
  cases l with
  | nil => exact absurd rfl h
  | cons a t =>
    rw [List.getLastD_eq_getLast?, List.getLast?_eq_getLast (a :: t) (by simp),
      Option.getD_some]
    exact List.getLast_mem (by simp)

/-- The instrumented draft loop records exactly K model invocations. -/
theorem draftStepCalls_length (model : Model) (sample_fn : Row → Token) :
    ∀ (K : ℕ) (ids : List Token),
      (draftStepCalls model sample_fn K ids).length = K := by
  intro K
  induction K with
  | zero => intro ids; rfl
  | succ k ih =>
    intro ids
    simp [draftStepCalls, ih]

/-- The stacked draft logits are exactly the last-position logits of the K
recorded model invocations, in order. -/
theorem draftStep_logits_eq_calls (model : Model) (sample_fn : Row → Token) :
    ∀ (K : ℕ) (ids : List Token),
      (draftStep model sample_fn K ids).2 =
        (draftStepCalls model sample_fn K ids).map
          (fun s => (model s).getLastD []) := by
  intro K
  induction K with
  | zero => intro ids; rfl
  | succ k ih =>
    intro ids
    simp only [draftStep, draftStepCalls, List.map_cons]
    rw [ih]

/-- Every logits row collected by the draft loop has vocabulary width V,
for a model that returns width-V rows and at least one row per call. -/
theorem draftStep_rows_length (model : Model) (sample_fn : Row → Token)
    (V : ℕ) (hwf : ∀ s, ∀ row ∈ model s, row.length = V)
    (hne : ∀ s, model s ≠ []) :
    ∀ (K : ℕ) (ids : List Token),
      ∀ row ∈ (draftStep model sample_fn K ids).2, row.length = V := by
  intro K
  induction K with
  | zero =>
    intro ids row hrow
    simp [draftStep] at hrow
  | succ k ih =>
    intro ids row hrow
    simp only [draftStep, List.mem_cons] at hrow
    rcases hrow with h | h
    · subst h
      exact hwf ids _ (getLastD_mem (model ids) [] (hne ids))
    · exact ih _ row h

/-- C7: for any input sequence and K ≥ 1, the draft sampler succeeds,
returns an extended sequence of length T+K whose first T tokens are the
unchanged input, and stacked draft logits of shape (K, V); the logits are
exactly the last-position outputs of the K recorded autoregressive model
invocations. In this pure embedding the input list is immutable, so
non-mutation is witnessed by the unchanged prefix. -/
theorem C7_draft_sampler_shape (model : Model) (sample_fn : Row → Token)
    (input_ids : List Token) (K V : ℕ) (hK : 1 ≤ K)
    (hwf : ∀ s, ∀ row ∈ model s, row.length = V)
    (hne : ∀ s, model s ≠ []) :
    ∃ inputs_plus_k draft_logits,
      _draft_sample_k model sample_fn input_ids K =
        .ok (inputs_plus_k, draft_logits) ∧
      inputs_plus_k.length = input_ids.length + K ∧
      inputs_plus_k.take input_ids.length = input_ids ∧
      draft_logits.length = K ∧
      (∀ row ∈ draft_logits, row.length = V) ∧
      (draftStepCalls model sample_fn K input_ids).length = K ∧
      draft_logits =
        (draftStepCalls model sample_fn K input_ids).map
          (fun s => (model s).getLastD []) := by
  obtain ⟨ext, h1, h2, h3⟩ := draftStep_spec model sample_fn K input_ids
  refine ⟨(draftStep model sample_fn K input_ids).1,
    (draftStep model sample_fn K input_ids).2, ?_, ?_, ?_, h3, ?_, ?_, ?_⟩
  · rw [_draft_sample_k]
    rw [if_neg ?_]
    intro hemp
    rw [List.isEmpty_iff] at hemp
    rw [hemp] at h3
    simp at h3
    omega
  · rw [h1]
    simp [h2]
  · rw [h1, List.take_left]
  · exact draftStep_rows_length model sample_fn V hwf hne K input_ids
  · exact draftStepCalls_length model sample_fn K input_ids
  · exact draftStep_logits_eq_calls model sample_fn K input_ids

/-- C7 witness: the example model (vocabulary width 2, always at least one
row) with K = 2 on input [3]. -/
theorem C7_draft_sampler_shape_witness :
    ∃ inputs_plus_k draft_logits,
      _draft_sample_k exModel exSample [3] 2 = .ok (inputs_plus_k, draft_logits) ∧
      inputs_plus_k.length = ([3] : List Token).length + 2 ∧
      inputs_plus_k.take ([3] : List Token).length = [3] ∧
      draft_logits.length = 2 ∧
      (∀ row ∈ draft_logits, row.length = 2) ∧
      (draftStepCalls exModel exSample 2 [3]).length = 2 ∧
      draft_logits =
        (draftStepCalls exModel exSample 2 [3]).map
          (fun s => (exModel s).getLastD []) :=
  C7_draft_sampler_shape exModel exSample [3] 2 2 (by decide)
    (by
      intro s row h
      simp [exModel] at h
      rcases h with ⟨-, h⟩ | h <;> simp [h])
    (by
      intro s
      simp [exModel])

/-- When the first rejection happens right after `front` accepted steps,
the accept/reject loop commits the accepted tokens plus exactly one
replacement token, reports `all_accepted = false`, and consumes
front.length + 2 draws — independently of anything after the rejection. -/
theorem acceptLoop_reject_terminal (rsrc : ℕ → ℚ) :
    ∀ (front : List SpecStep) (s : SpecStep) (tail : List SpecStep)
      (ids : List Token) (cnt r : ℕ) (x : Token),
      (∀ i, i < front.length →
        rsrc (r + i) < sampled_ratios (front.getD i ([], [], 0)).1
          (front.getD i ([], [], 0)).2.1 (front.getD i ([], [], 0)).2.2) →
      ¬(rsrc (r + front.length) < sampled_ratios s.1 s.2.1 s.2.2) →
      _target_sample_from_distribution s.1 s.2.1 (rsrc (r + front.length + 1)) =
        .ok x →
      acceptLoop rsrc (front ++ s :: tail) ids cnt r =
        .ok (ids ++ front.map stepTok ++ [x], cnt + front.length, false,
          r + front.length + 2) := by
  intro front
  induction front with
  | nil =>
    intro s tail ids cnt r x hacc hrej hsamp
    obtain ⟨trow, drow, tok⟩ := s
    simp only [List.length_nil, Nat.add_zero] at hrej hsamp
    rw [List.nil_append, acceptLoop, if_neg hrej, hsamp]
    simp
  | cons f front' ih =>
    intro s tail ids cnt r x hacc hrej hsamp
    obtain ⟨trow, drow, tok⟩ := f
    have h0 := hacc 0 (by simp)
    simp only [List.getD_cons_zero, Nat.add_zero] at h0
    rw [List.cons_append, acceptLoop, if_pos h0]
    have hacc' : ∀ i, i < front'.length →
        rsrc (r + 1 + i) < sampled_ratios (front'.getD i ([], [], 0)).1
          (front'.getD i ([], [], 0)).2.1 (front'.getD i ([], [], 0)).2.2 := by
      intro i hi
      have h2 := hacc (i + 1) (by simpa using Nat.succ_lt_succ hi)
      simp only [List.getD_cons_succ] at h2
      have harg : r + (i + 1) = r + 1 + i := by omega
      rw [harg] at h2
      exact h2
    have hrej' : ¬(rsrc (r + 1 + front'.length) <
        sampled_ratios s.1 s.2.1 s.2.2) := by
      have harg : r + 1 + front'.length =
          r + ((trow, drow, tok) :: front').length := by
        simp only [List.length_cons]
        omega
      rw [harg]
      exact hrej
    have hsamp' : _target_sample_from_distribution s.1 s.2.1
        (rsrc (r + 1 + front'.length + 1)) = .ok x := by
      have harg : r + 1 + front'.length + 1 =
          r + ((trow, drow, tok) :: front').length + 1 := by
        simp only [List.length_cons]
        omega
      rw [harg]
      exact hsamp
    rw [ih s tail (ids ++ [tok]) (cnt + 1) (r + 1) x hacc' hrej' hsamp']
    simp [stepTok, List.append_assoc, Nat.add_assoc, Nat.add_comm,
      Nat.add_left_comm]

/-- C9: when the accept/reject loop rejects the speculative token at the
position following `front` accepted steps, the iteration returns the
accepted tokens plus exactly one replacement token sampled from the
corrective distribution, with accept_count = front.length and no bonus
token (the committed length is T + front.length + 1); and the loop result
does not depend on the steps after the rejection position — they are never
examined. -/
theorem C9_rejection_is_terminal (target_model draft_model : Model)
    (sample_fn : Row → Token) (pexp : ℚ → ℚ) (temp : ℚ) (rsrc : ℕ → ℚ)
    (input_ids : List Token) (K r : ℕ) (inputs_plus_k : List Token)
    (draft_logits : List Row) (front : List SpecStep) (s : SpecStep)
    (tail : List SpecStep) (x : Token)
    (hd : _draft_sample_k draft_model sample_fn input_ids K =
      .ok (inputs_plus_k, draft_logits))
    (hsplit : _ssp_specSteps target_model pexp temp input_ids inputs_plus_k
      draft_logits K = front ++ s :: tail)
    (hacc : ∀ i, i < front.length →
      rsrc (r + i) < sampled_ratios (front.getD i ([], [], 0)).1
        (front.getD i ([], [], 0)).2.1 (front.getD i ([], [], 0)).2.2)
    (hrej : ¬(rsrc (r + front.length) < sampled_ratios s.1 s.2.1 s.2.2))
    (hsamp : _target_sample_from_distribution s.1 s.2.1
      (rsrc (r + front.length + 1)) = .ok x) :
    _ssp_iteration target_model draft_model sample_fn pexp temp rsrc input_ids
        K r =
      .ok (input_ids ++ front.map stepTok ++ [x], front.length,
        r + front.length + 2) ∧
    ∀ tail', acceptLoop rsrc (front ++ s :: tail') input_ids 0 r =
      acceptLoop rsrc (front ++ s :: tail) input_ids 0 r := by
  have hloop := acceptLoop_reject_terminal rsrc front s tail input_ids 0 r x
    hacc hrej hsamp
  constructor
  · rw [_ssp_iteration, hd]
    dsimp only
    rw [hsplit, hloop]
    simp
  · intro tail'
    rw [hloop, acceptLoop_reject_terminal rsrc front s tail' input_ids 0 r x
      hacc hrej hsamp]

/-- Concrete evaluation: identity-normalized one-hot target row. -/
theorem exDistT_eval : get_temperature_distribution exPexpId 1 [1, 0] = [1, 0] := by
  simp [get_temperature_distribution, exPexpId]

/-- Concrete evaluation: identity-normalized one-hot draft row. -/
theorem exDistD_eval : get_temperature_distribution exPexpId 1 [0, 1] = [0, 1] := by
  simp [get_temperature_distribution, exPexpId]

/-- Concrete evaluation: drafting from the token-1 model. -/
theorem exDraftR_eval : _draft_sample_k exDraftModel exSample [5] 2 =
    .ok ([5, 1, 1], [[0, 1], [0, 1]]) := by
  rfl

/-- Concrete evaluation: disjoint-support step data (target favors token
0, draft favors token 1). -/
theorem exStepsR_eval :
    _ssp_specSteps exTargetModel exPexpId 1 [5] [5, 1, 1] [[0, 1], [0, 1]] 2 =
      [([1, 0], [0, 1], 1), ([1, 0], [0, 1], 1)] := by
  simp [_ssp_specSteps, _ssp_target_logits, lastSlice, exTargetModel,
    List.range_succ, exDistT_eval, exDistD_eval]

/-- Concrete evaluation: corrective resampling with disjoint support
returns the target-favored token 0. -/
theorem exCorr_eval : _target_sample_from_distribution [1, 0] [0, 1] 0 = .ok 0 := by
  have hc : correctiveDistribution [1, 0] [0, 1] = [1, 0] := by
    simp [correctiveDistribution]
  rw [_target_sample_from_distribution, hc, torchMultinomial]
  norm_num [multinomialPick]

/-- C9 witness: disjoint-support models; the first speculative token is
rejected immediately, one replacement token 0 commits, and the tail of the
step list is irrelevant. -/
theorem C9_rejection_is_terminal_witness :
    _ssp_iteration exTargetModel exDraftModel exSample exPexpId 1 exRand [5] 2 0 =
      .ok ([5] ++ ([] : List SpecStep).map stepTok ++ [0], ([] : List SpecStep).length,
        0 + ([] : List SpecStep).length + 2) ∧
    ∀ tail', acceptLoop exRand (([] : List SpecStep) ++ ([1, 0], [0, 1], 1) :: tail')
        [5] 0 0 =
      acceptLoop exRand
        (([] : List SpecStep) ++ ([1, 0], [0, 1], 1) :: [([1, 0], [0, 1], 1)])
        [5] 0 0 :=
  C9_rejection_is_terminal exTargetModel exDraftModel exSample exPexpId 1 exRand
    [5] 2 0 [5, 1, 1] [[0, 1], [0, 1]] [] ([1, 0], [0, 1], 1)
    [([1, 0], [0, 1], 1)] 0 exDraftR_eval exStepsR_eval
    (fun i hi => absurd hi (Nat.not_lt_zero i))
    (by
      show ¬(exRand 0 < sampled_ratios [1, 0] [0, 1] 1)
      simp [exRand, sampled_ratios, List.getD])
    exCorr_eval

end Lssp
